import Mathlib

/-!
Shallow embedding of the video assembly engine of `src/video_creator.py`
(function `create_video_with_subtitles` and its helpers).

Real-number quantities (durations in seconds) are modelled as rationals;
Python float literals `0.8` and `0.01` become `4/5` and `1/100`.
External encoder invocations (ffmpeg) are modelled by boolean oracles:
`_run_ffmpeg` catches every exception and returns a success flag, so each
call site sees only a `Bool`.
-/

/-- Python `int(q)` truncates toward zero. -/
def pyInt (q : ℚ) : ℤ :=
  if 0 ≤ q then ⌊q⌋ else ⌈q⌉

/-- Embeds `audio_dur = _ffprobe_duration_seconds(voiceover) or float(max_duration)`
(line 315).  `probe` is the result of `_ffprobe_duration_seconds` (`None` on
failure).  Python `or` falls through to `float(max_duration)` when the left
operand is falsy, i.e. when the probe failed (`None`) or returned `0.0`. -/
def audioDur (probe : Option ℚ) (maxDuration : ℤ) : ℚ :=
  match probe with
  | none => (maxDuration : ℚ)
  | some d => if d = 0 then (maxDuration : ℚ) else d

/-- Embeds `target_total = min(float(max_duration), audio_dur)` (line 316). -/
def targetTotal (probe : Option ℚ) (maxDuration : ℤ) : ℚ :=
  min (maxDuration : ℚ) (audioDur probe maxDuration)

/-- Embeds `num_lines = max(1, len(segments))` (line 317). -/
def numLines (segCount : ℕ) : ℕ :=
  max 1 segCount

/-- Embeds `per_line = max(0.8, target_total / num_lines)` (line 318). -/
def perLine (probe : Option ℚ) (maxDuration : ℤ) (segCount : ℕ) : ℚ :=
  max (4/5) (targetTotal probe maxDuration / (numLines segCount : ℚ))

/-- Embeds the scheduling loop shared by both branches of the orchestrator
(lines 326-334 and 336-353): for each of the `num_lines` iterations, stop if
`used >= target_total - 0.01`, otherwise schedule
`secs = min(per_line, target_total - used)` and advance `used` by it.
Returns the list of scheduled slice durations (`durations` in the source). -/
def scheduleAux (per target : ℚ) : ℕ → ℚ → List ℚ
  | 0, _ => []
  | n + 1, used =>
    if target - 1/100 ≤ used then []
    else
      min per (target - used) :: scheduleAux per target n (used + min per (target - used))

/-- The slice durations emitted by the orchestrator's scheduling loop. -/
def loopDurations (probe : Option ℚ) (maxDuration : ℤ) (segCount : ℕ) : List ℚ :=
  scheduleAux (perLine probe maxDuration segCount) (targetTotal probe maxDuration)
    (numLines segCount) 0

/-- Embeds the final-safety branch (lines 355-361): when the loop prepared no
fragment, a single black fragment is appended with
`durations.append(float(target_total))`. -/
def scheduledDurations (probe : Option ℚ) (maxDuration : ℤ) (segCount : ℕ) : List ℚ :=
  if loopDurations probe maxDuration segCount = [] then [targetTotal probe maxDuration]
  else loopDurations probe maxDuration segCount

/-- The scheduling loop returns nothing once the epsilon-guarded budget is used. -/
theorem scheduleAux_of_guard (per target : ℚ) :
    ∀ (n : ℕ) (used : ℚ), target - 1/100 ≤ used → scheduleAux per target n used = [] := by
  intro n used h
  cases n with
  | zero => rfl
  | succ n => rw [scheduleAux, if_pos h]

/-- The scheduled slices never spend more than the remaining budget. -/
theorem scheduleAux_sum_le (per target : ℚ) :
    ∀ (n : ℕ) (used : ℚ), used ≤ target →
      (scheduleAux per target n used).sum ≤ target - used := by
  intro n
  induction n with
  | zero =>
    intro used h
    simp [scheduleAux]
    linarith
  | succ n ih =>
    intro used h
    rw [scheduleAux]
    split_ifs with hg
    · simp
      linarith
    · simp only [List.sum_cons]
      have hmin : min per (target - used) ≤ target - used := min_le_right _ _
      have h2 : used + min per (target - used) ≤ target := by linarith
      have h3 := ih (used + min per (target - used)) h2
      linarith

/-- Every slice emitted by the loop is strictly longer than the 0.01s epsilon. -/
theorem scheduleAux_mem_pos (per target : ℚ) (hper : 4/5 ≤ per) :
    ∀ (n : ℕ) (used : ℚ), ∀ x ∈ scheduleAux per target n used, 1/100 < x := by
  intro n
  induction n with
  | zero =>
    intro used x hx
    simp [scheduleAux] at hx
  | succ n ih =>
    intro used x hx
    rw [scheduleAux] at hx
    split_ifs at hx with hg
    · simp at hx
    · push_neg at hg
      rcases List.mem_cons.mp hx with h1 | h2
      · subst h1
        exact lt_min (by linarith) (by linarith)
      · exact ih _ x h2

/-- Every slice except possibly the last one is at least `per` long:
a slice shorter than `per` consumes the whole remaining budget, after which
the loop stops. -/
theorem scheduleAux_dropLast_ge (per target : ℚ) :
    ∀ (n : ℕ) (used : ℚ), ∀ x ∈ (scheduleAux per target n used).dropLast, per ≤ x := by
  intro n
  induction n with
  | zero =>
    intro used x hx
    simp [scheduleAux] at hx
  | succ n ih =>
    intro used x hx
    rw [scheduleAux] at hx
    split_ifs at hx with hg
    · simp at hx
    · push_neg at hg
      by_cases hrest : scheduleAux per target n (used + min per (target - used)) = []
      · rw [hrest] at hx
        simp at hx
      · rw [List.dropLast_cons_of_ne_nil hrest] at hx
        rcases List.mem_cons.mp hx with h1 | h2
        · subst h1
          by_cases hc : target - used ≤ per
          · exfalso
            rw [min_eq_right hc] at hrest
            exact hrest (scheduleAux_of_guard per target n _ (by linarith))
          · push_neg at hc
            rw [min_eq_left (le_of_lt hc)]
        · exact ih _ x h2

/-- When the loop stops before exhausting the segment count, the accumulated
time has reached the epsilon-guarded budget. -/
theorem scheduleAux_stop (per target : ℚ) :
    ∀ (n : ℕ) (used : ℚ), (scheduleAux per target n used).length < n →
      target - 1/100 ≤ used + (scheduleAux per target n used).sum := by
  intro n
  induction n with
  | zero =>
    intro used h
    simp at h
  | succ n ih =>
    intro used h
    rw [scheduleAux] at h ⊢
    split_ifs at h ⊢ with hg
    · simpa using hg
    · simp only [List.length_cons, Nat.add_lt_add_iff_right] at h
      have h3 := ih (used + min per (target - used)) h
      simp only [List.sum_cons]
      linarith

/-- The per-segment slice is never below the 0.8s floor. -/
theorem perLine_ge (probe : Option ℚ) (M : ℤ) (segCount : ℕ) :
    4/5 ≤ perLine probe M segCount :=
  le_max_left _ _

/-- With a positive ceiling and a positive (hence non-falsy) probed duration,
the effective narration duration is positive. -/
theorem audioDur_pos (probe : Option ℚ) (M : ℤ) (hM : 0 < M)
    (hprobe : ∀ d, probe = some d → 0 < d) : 0 < audioDur probe M := by
  cases probe with
  | none =>
    simp only [audioDur]
    exact_mod_cast hM
  | some d =>
    have hd : 0 < d := hprobe d rfl
    simp only [audioDur, hd.ne', if_false]
    exact hd

/-- Claim C1, counterexample: a narration duration probed as exactly `0.0` is
falsy in Python, so `audio_dur = probe or float(max_duration)` silently
replaces it with the ceiling: with `M = 60` the planner returns
`targetTotal = 60`, while the claimed formula `min(M, a)` gives `0`. -/
theorem c1_counterexample_zero_probe :
    targetTotal (some 0) 60 = 60 ∧ min (60 : ℚ) 0 = 0 ∧ (60 : ℚ) ≠ 0 := by
  refine ⟨?_, ?_, by norm_num⟩
  · norm_num [targetTotal, audioDur]
  · norm_num [min_def]

/-- Claim C1 (amended): for every probed narration duration `a ≠ 0` the
planner computes `targetTotal = min(M, a)` — in particular `targetTotal = a`
whenever `0 < a < M` — and `perSegment = max(0.8, targetTotal / max(1, N))`;
when the probe fails (`none`) or yields the Python-falsy duration `0.0`,
`targetTotal` falls back to `M`. -/
theorem c1_duration_planner (a : ℚ) (M : ℤ) (segCount : ℕ) (ha : a ≠ 0) :
    targetTotal (some a) M = min (M : ℚ) a ∧
    (0 < a → a < M → targetTotal (some a) M = a) ∧
    targetTotal none M = M ∧
    targetTotal (some 0) M = M ∧
    perLine (some a) M segCount = max (4/5) (min (M : ℚ) a / (max 1 segCount : ℕ)) := by
  have h1 : targetTotal (some a) M = min (M : ℚ) a := by
    simp [targetTotal, audioDur, ha]
  refine ⟨h1, ?_, ?_, ?_, ?_⟩
  · intro h0 hM
    rw [h1]
    exact min_eq_right (le_of_lt hM)
  · simp [targetTotal, audioDur]
  · simp [targetTotal, audioDur]
  · simp [perLine, numLines, h1]

/-- Witness for `c1_duration_planner` at `a = 15`, `M = 60`. -/
theorem c1_duration_planner_witness :
    (15 : ℚ) ≠ 0 ∧ targetTotal (some 15) 60 = min (60 : ℚ) 15 :=
  ⟨by norm_num, (c1_duration_planner 15 60 3 (by norm_num)).1⟩

/-- Claim C2, counterexample: with a narration probed as exactly `0.0`
(`M = 60`, one segment) the orchestrator schedules a single 60s slice, so the
scheduled total is `60`, far above `min(60, 0) + 0.8`. -/
theorem c2_counterexample_zero_probe :
    (scheduledDurations (some 0) 60 1).sum = 60 ∧ min (60 : ℚ) 0 + 4/5 < 60 := by
  constructor
  · norm_num [scheduledDurations, loopDurations, scheduleAux, perLine, targetTotal,
      audioDur, numLines]
  · norm_num [min_def]

/-- Claim C2 (amended): for every segment count, ceiling `M > 0` and probe
result whose probed value (if any) is positive, the scheduled slice durations
sum to at most `targetTotal` (no slack is even needed), none is negative, and
for a positive probed duration `d` the bound `targetTotal` equals `min(M, d)`;
a probe of the Python-falsy `0.0` is excluded, since the code then schedules
against `M` instead (see the counterexample). -/
theorem c2_schedule_budget (probe : Option ℚ) (M : ℤ) (segCount : ℕ)
    (hM : 0 < M) (hprobe : ∀ d, probe = some d → 0 < d) :
    (scheduledDurations probe M segCount).sum ≤ targetTotal probe M ∧
    (∀ x ∈ scheduledDurations probe M segCount, 0 ≤ x) ∧
    (∀ d, probe = some d → targetTotal probe M = min (M : ℚ) d) := by
  have htpos : 0 < targetTotal probe M := by
    have h1 : (0 : ℚ) < (M : ℚ) := by exact_mod_cast hM
    exact lt_min h1 (audioDur_pos probe M hM hprobe)
  refine ⟨?_, ?_, ?_⟩
  · by_cases hnil : loopDurations probe M segCount = []
    · simp [scheduledDurations, hnil]
    · simp only [scheduledDurations, hnil, if_false]
      have := scheduleAux_sum_le (perLine probe M segCount) (targetTotal probe M)
        (numLines segCount) 0 (le_of_lt htpos)
      simpa [loopDurations] using this
  · intro x hx
    by_cases hnil : loopDurations probe M segCount = []
    · simp [scheduledDurations, hnil] at hx
      rw [hx]
      exact le_of_lt htpos
    · simp only [scheduledDurations, hnil, if_false] at hx
      have := scheduleAux_mem_pos (perLine probe M segCount) (targetTotal probe M)
        (perLine_ge probe M segCount) (numLines segCount) 0 x
      have h2 := this (by simpa [loopDurations] using hx)
      linarith
  · intro d hd
    have hdpos : 0 < d := hprobe d hd
    rw [hd]
    simp [targetTotal, audioDur, hdpos.ne']

/-- Witness for `c2_schedule_budget` at `probe = some 30`, `M = 60`, 3 segments. -/
theorem c2_schedule_budget_witness :
    (0 : ℤ) < 60 ∧ (scheduledDurations (some 30) 60 3).sum ≤ targetTotal (some 30) 60 :=
  ⟨by norm_num,
    (c2_schedule_budget (some 30) 60 3 (by norm_num)
      (by intro d hd; simp only [Option.some.injEq] at hd; subst hd; norm_num)).1⟩

/-- Claim C3, counterexample: with narration probed at 1s, `M = 60` and two
segments, the loop schedules `[0.8, 0.2]` — the second scheduled segment
receives only 0.2s, below the claimed 0.8s floor; the code caps each slice at
the remaining budget instead of letting the total exceed the narration
length. -/
theorem c3_counterexample_short_last_slice :
    loopDurations (some 1) 60 2 = [4/5, 1/5] ∧ ¬ (4/5 ≤ (1/5 : ℚ)) := by
  constructor
  · norm_num [loopDurations, scheduleAux, perLine, targetTotal, audioDur, numLines]
  · norm_num

/-- Claim C3 (amended): every scheduled slice except possibly the last
receives at least 0.8 seconds; the last slice may be shorter — it is capped
at the remaining budget — but always exceeds the 0.01s epsilon; and whenever
the loop stops before emitting one fragment per segment, the accumulated
used-time has reached `targetTotal - 0.01`. -/
theorem c3_slice_floor (probe : Option ℚ) (M : ℤ) (segCount : ℕ) :
    (∀ x ∈ (loopDurations probe M segCount).dropLast, 4/5 ≤ x) ∧
    (∀ x ∈ loopDurations probe M segCount, 1/100 < x) ∧
    ((loopDurations probe M segCount).length < numLines segCount →
      targetTotal probe M - 1/100 ≤ (loopDurations probe M segCount).sum) := by
  refine ⟨?_, ?_, ?_⟩
  · intro x hx
    have h1 := scheduleAux_dropLast_ge (perLine probe M segCount) (targetTotal probe M)
      (numLines segCount) 0 x (by simpa [loopDurations] using hx)
    exact le_trans (perLine_ge probe M segCount) h1
  · intro x hx
    exact scheduleAux_mem_pos (perLine probe M segCount) (targetTotal probe M)
      (perLine_ge probe M segCount) (numLines segCount) 0 x
      (by simpa [loopDurations] using hx)
  · intro h
    have := scheduleAux_stop (perLine probe M segCount) (targetTotal probe M)
      (numLines segCount) 0 (by simpa [loopDurations] using h)
    simpa [loopDurations] using this

/-- Witness for `c3_slice_floor` at `probe = some 30`, `M = 60`, 3 segments:
the first scheduled slice (10s) is among the non-final slices and is ≥ 0.8s. -/
theorem c3_slice_floor_witness :
    (10 : ℚ) ∈ (loopDurations (some 30) 60 3).dropLast ∧ 4/5 ≤ (10 : ℚ) :=
  ⟨by norm_num [loopDurations, scheduleAux, perLine, targetTotal, audioDur, numLines],
    (c3_slice_floor (some 30) 60 3).1 10
      (by norm_num [loopDurations, scheduleAux, perLine, targetTotal, audioDur, numLines])⟩

/-- One normalization case of the orchestrator loop: the slice's asset is
either absent (no-assets branch, lines 324-334), an `.mp4` clip whose
re-encode may succeed or fail (lines 342-346), or any other file fed to the
still-image encoder, which may succeed or fail (lines 347-350). -/
inductive AssetCase
  | noAsset
  | mp4Clip (reencodeOk : Bool)
  | otherFile (imageOk : Bool)
deriving DecidableEq

/-- The duration argument handed to the encoder for one slice of `secs`
seconds, per branch of the source: `_reencode_with_ffmpeg(..., max_seconds=secs)`
(line 343) passes `secs` unchanged, while `_image_to_video(..., seconds=int(secs))`
(line 348) and every `_black_fallback(..., seconds=int(secs))` call
(lines 331, 346, 350) truncate it with Python `int`. -/
def fragmentEncoderSeconds : AssetCase → ℚ → ℚ
  | AssetCase.mp4Clip true, secs => secs
  | AssetCase.mp4Clip false, secs => ((pyInt secs : ℤ) : ℚ)
  | AssetCase.otherFile _, secs => ((pyInt secs : ℤ) : ℚ)
  | AssetCase.noAsset, secs => ((pyInt secs : ℤ) : ℚ)

/-- Claim C4, counterexample: a still-image asset with a slice of 5.5 seconds
is encoded with `seconds=int(5.5) = 5`, not the requested 5.5 — the duration
passed to the encoder drops the fractional part on the still-image path. -/
theorem c4_counterexample_truncated_image_seconds :
    fragmentEncoderSeconds (AssetCase.otherFile true) (11/2) = 5 ∧ (5 : ℚ) ≠ 11/2 := by
  constructor
  · show ((pyInt (11/2) : ℤ) : ℚ) = 5
    norm_num [pyInt]
  · norm_num

/-- Claim C4 (amended): only the `.mp4` video-clip path passes the slice
duration to the encoder exactly (fractional seconds included); the
still-image path and every black-fallback path truncate it to whole seconds
with Python `int`, so each fragment's encoder duration is within 1 second
below the requested slice duration but not always equal to it. -/
theorem c4_fragment_duration (secs : ℚ) (h : 0 ≤ secs) :
    fragmentEncoderSeconds (AssetCase.mp4Clip true) secs = secs ∧
    (∀ ok, fragmentEncoderSeconds (AssetCase.otherFile ok) secs = (⌊secs⌋ : ℚ)) ∧
    fragmentEncoderSeconds AssetCase.noAsset secs = (⌊secs⌋ : ℚ) ∧
    fragmentEncoderSeconds (AssetCase.mp4Clip false) secs = (⌊secs⌋ : ℚ) ∧
    (∀ c, fragmentEncoderSeconds c secs ≤ secs ∧ secs - 1 < fragmentEncoderSeconds c secs) := by
  have hp : pyInt secs = ⌊secs⌋ := if_pos h
  have hfloor : ((⌊secs⌋ : ℤ) : ℚ) ≤ secs := Int.floor_le secs
  have hfloor2 : secs - 1 < ((⌊secs⌋ : ℤ) : ℚ) := Int.sub_one_lt_floor secs
  refine ⟨rfl, ?_, ?_, ?_, ?_⟩
  · intro ok
    cases ok <;> simp [fragmentEncoderSeconds, hp]
  · simp [fragmentEncoderSeconds, hp]
  · simp [fragmentEncoderSeconds, hp]
  · intro c
    have hval : fragmentEncoderSeconds c secs = secs ∨
        fragmentEncoderSeconds c secs = ((⌊secs⌋ : ℤ) : ℚ) := by
      cases c with
      | noAsset => exact Or.inr (by simp [fragmentEncoderSeconds, hp])
      | mp4Clip ok =>
        cases ok with
        | false => exact Or.inr (by simp [fragmentEncoderSeconds, hp])
        | true => exact Or.inl rfl
      | otherFile ok => exact Or.inr (by simp [fragmentEncoderSeconds, hp])
    rcases hval with h1 | h1 <;> rw [h1]
    · exact ⟨le_refl _, by linarith⟩
    · exact ⟨hfloor, hfloor2⟩

/-- Witness for `c4_fragment_duration` at `secs = 7/2`. -/
theorem c4_fragment_duration_witness :
    (0 : ℚ) ≤ 7/2 ∧ fragmentEncoderSeconds (AssetCase.mp4Clip true) (7/2) = 7/2 :=
  ⟨by norm_num, (c4_fragment_duration (7/2) (by norm_num)).1⟩

/-- Python `str.lower()`, modelled as the characterwise ASCII case mapping
(file extensions are ASCII). -/
def pyLower (s : String) : String :=
  String.mk (s.data.map Char.toLower)

/-- The primary normalization path picked for a present asset: the source
dispatches on `asset.suffix.lower() == ".mp4"` (line 342). -/
inductive PrimaryRoute
  | videoClip
  | stillImage
deriving DecidableEq

/-- The normalization path first attempted for an asset with the given
pathlib suffix (file extension, dot included). -/
def assetPrimaryRoute (suffix : String) : PrimaryRoute :=
  if pyLower suffix = ".mp4" then PrimaryRoute.videoClip else PrimaryRoute.stillImage

/-- The kind of fragment a normalization attempt finally produces. -/
inductive FragKind
  | clipFragment
  | imageFragment
  | blackFragment
deriving DecidableEq

/-- The fragment produced for an asset (lines 342-350): the primary encoder
of the dispatched route, falling back to the solid-black generator when the
primary encoder fails. -/
def assetFragment (suffix : String) (primaryOk : Bool) : FragKind :=
  if pyLower suffix = ".mp4" then
    (if primaryOk then FragKind.clipFragment else FragKind.blackFragment)
  else
    (if primaryOk then FragKind.imageFragment else FragKind.blackFragment)

/-- Claim C10: a present asset takes the video-clip path iff its lowercased
extension is exactly `.mp4`; every other extension — `.mov`, `.webm`, `.jpg`
included — goes through the still-image path and falls back to a solid black
fragment when that encoding fails.  `.MP4` is lowercased first, so it still
takes the clip path. -/
theorem c10_extension_dispatch (suffix : String) (ok : Bool) :
    (assetPrimaryRoute suffix = PrimaryRoute.videoClip ↔ pyLower suffix = ".mp4") ∧
    (pyLower suffix ≠ ".mp4" →
      assetFragment suffix ok
        = (if ok then FragKind.imageFragment else FragKind.blackFragment)) ∧
    assetPrimaryRoute ".mov" = PrimaryRoute.stillImage ∧
    assetPrimaryRoute ".webm" = PrimaryRoute.stillImage ∧
    assetPrimaryRoute ".MP4" = PrimaryRoute.videoClip ∧
    assetPrimaryRoute ".jpg" = PrimaryRoute.stillImage := by
  refine ⟨?_, ?_, ?_, ?_, ?_, ?_⟩
  · constructor
    · intro h
      by_contra hne
      simp [assetPrimaryRoute, hne] at h
    · intro h
      simp [assetPrimaryRoute, h]
  · intro h
    simp [assetFragment, h]
  · decide
  · decide
  · decide
  · decide

/-- Witness for `c10_extension_dispatch` at suffix `.mov`. -/
theorem c10_extension_dispatch_witness :
    pyLower ".mov" ≠ ".mp4" ∧ assetFragment ".mov" true = FragKind.imageFragment :=
  ⟨by decide, by
    have h := (c10_extension_dispatch ".mov" true).2.1 (by decide)
    simpa using h⟩

/-- The video stream handed on to the audio-mux stage. -/
inductive VideoStream
  | burned
  | soft
  | plain
deriving DecidableEq

/-- Embeds the subtitle-burn stage (lines 375-405): `burnOk` is the outcome
of the ASS burn-in ffmpeg call (line 385), `softOk` that of the mov_text
soft-subtitle embed call (line 398).  `_run_ffmpeg` returns a Bool and never
raises, so the source's `except` arms are mere safety nets.  The result is
the stream bound to `concat_for_audio`. -/
def subtitleStage (burnOk softOk : Bool) : VideoStream :=
  if burnOk then VideoStream.burned
  else if softOk then VideoStream.soft
  else VideoStream.plain

/-- How many tiers the subtitle stage went through before settling. -/
def subtitleTiersTried (burnOk softOk : Bool) : ℕ :=
  if burnOk then 1 else if softOk then 2 else 3

/-- The ffmpeg command of the tier-1 burn-in (lines 378-384): it renders the
styled ASS track into the pixels of the concatenated stream. -/
def burnCmd (concat assFile burnedOut : String) : List String :=
  ["ffmpeg", "-y", "-v", "error", "-i", concat, "-vf", "ass=" ++ assFile,
   "-c:v", "libx264", "-preset", "veryfast", "-pix_fmt", "yuv420p", burnedOut]

/-- The ffmpeg command of the tier-2 soft-subtitle embed (lines 391-397): the
portable SRT track is added as a selectable mov_text stream, video copied. -/
def softSubsCmd (concat srtFile softOut : String) : List String :=
  ["ffmpeg", "-y", "-v", "error", "-i", concat, "-i", srtFile,
   "-c:v", "copy", "-c:s", "mov_text", softOut]

/-- Claim C8: the subtitle stage tries burn-in, then soft-subtitle embed,
then pass-through, in that order; the first success ends the chain, and for
every outcome of the two encoder calls the stage settles on one of the three
usable streams (it never raises).  Tier 1 consumes the styled ASS track as a
filter; tier 2 consumes the portable SRT track as a second input and embeds
it as a selectable mov_text stream over a copied video stream. -/
theorem c8_subtitle_fallback_chain (burnOk softOk : Bool) :
    (burnOk = true → subtitleStage burnOk softOk = VideoStream.burned ∧
      subtitleTiersTried burnOk softOk = 1) ∧
    (burnOk = false → softOk = true → subtitleStage burnOk softOk = VideoStream.soft ∧
      subtitleTiersTried burnOk softOk = 2) ∧
    (burnOk = false → softOk = false → subtitleStage burnOk softOk = VideoStream.plain ∧
      subtitleTiersTried burnOk softOk = 3) ∧
    (subtitleStage burnOk softOk = VideoStream.burned ∨
      subtitleStage burnOk softOk = VideoStream.soft ∨
      subtitleStage burnOk softOk = VideoStream.plain) ∧
    (∀ c a b, ("ass=" ++ a) ∈ burnCmd c a b) ∧
    (∀ c s o, s ∈ softSubsCmd c s o) ∧
    (∀ c s o, "mov_text" ∈ softSubsCmd c s o) := by
  refine ⟨?_, ?_, ?_, ?_, ?_, ?_, ?_⟩
  · intro hb
    subst hb
    exact ⟨rfl, rfl⟩
  · intro hb hs
    subst hb
    subst hs
    exact ⟨rfl, rfl⟩
  · intro hb hs
    subst hb
    subst hs
    exact ⟨rfl, rfl⟩
  · cases burnOk <;> cases softOk <;> simp [subtitleStage]
  · intro c a b
    simp [burnCmd]
  · intro c s o
    simp [softSubsCmd]
  · intro c s o
    simp [softSubsCmd]

/-- Witness for `c8_subtitle_fallback_chain`: with the burn failing and the
soft embed succeeding, the stage hands the soft-subtitled stream onward. -/
theorem c8_subtitle_fallback_chain_witness :
    subtitleStage false true = VideoStream.soft :=
  ((c8_subtitle_fallback_chain false true).2.1 rfl rfl).1

/-- The outcome of the audio-mux stage: a muxed file carrying narration
audio over the given video stream, or a silent video emitted as-is. -/
inductive MuxOutcome
  | withAudio (v : VideoStream)
  | silent (v : VideoStream)
deriving DecidableEq

/-- Embeds the audio-mux stage and its fallbacks (lines 284-294 and 407-422).
`v` is the stream chosen by the subtitle stage (`concat_for_audio`);
`copyOk` is the outcome of the stream-copy mux `_mux_audio` (line 409),
`reencodeOk` that of the full re-encode retry (line 417), and `concatExists`
models `concat_out.exists()` (line 418).  On double failure the source emits
`concat_out` — the concatenated stream from before the subtitle stage — and
`none` models the `raise` (line 422) aborting the run. -/
def muxStage (v : VideoStream) (copyOk reencodeOk concatExists : Bool) : Option MuxOutcome :=
  if copyOk then some (MuxOutcome.withAudio v)
  else if reencodeOk then some (MuxOutcome.withAudio v)
  else if concatExists then some (MuxOutcome.silent VideoStream.plain)
  else none

/-- The stream-copy mux command of `_mux_audio` (lines 285-293): video
copied, audio re-encoded to AAC, output truncated to the shorter stream. -/
def muxAudioCmd (videoSrc audioSrc dst : String) : List String :=
  ["ffmpeg", "-y", "-v", "error", "-i", videoSrc, "-i", audioSrc,
   "-map", "0:v:0", "-map", "1:a:0", "-c:v", "copy", "-c:a", "aac", "-shortest", dst]

/-- The full re-encode retry command (lines 410-416). -/
def muxRetryCmd (videoSrc audioSrc dst : String) : List String :=
  ["ffmpeg", "-y", "-v", "error", "-i", videoSrc, "-i", audioSrc,
   "-c:v", "libx264", "-c:a", "aac", "-shortest", dst]

/-- Claim C9, counterexample: subtitles were burned (`v = burned`), then both
mux attempts fail and the concatenated file exists — the source emits the
pre-subtitle `concat_out` stream silent, not the burned stream that entered
the mux stage as the claim states. -/
theorem c9_counterexample_silent_fallback :
    muxStage VideoStream.burned false false true
      = some (MuxOutcome.silent VideoStream.plain) ∧
    MuxOutcome.silent VideoStream.plain ≠ MuxOutcome.silent VideoStream.burned := by
  exact ⟨rfl, by decide⟩

/-- Claim C9 (amended): the muxer first attempts the stream-copy mux (video
copied, audio re-encoded to AAC, `-shortest`), on failure retries once with a
full re-encode of both streams, and if both fail it emits the *pre-subtitle*
concatenated video silent — not the possibly-subtitled mux-stage input — as
the final output; the run aborts only when that concatenated file is
missing. -/
theorem c9_mux_fallback (v : VideoStream) (copyOk reencodeOk concatExists : Bool) :
    (copyOk = true → muxStage v copyOk reencodeOk concatExists
      = some (MuxOutcome.withAudio v)) ∧
    (copyOk = false → reencodeOk = true → muxStage v copyOk reencodeOk concatExists
      = some (MuxOutcome.withAudio v)) ∧
    (copyOk = false → reencodeOk = false → concatExists = true →
      muxStage v copyOk reencodeOk concatExists
        = some (MuxOutcome.silent VideoStream.plain)) ∧
    (copyOk = false → reencodeOk = false → concatExists = false →
      muxStage v copyOk reencodeOk concatExists = none) ∧
    (∀ a b c, ["-c:v", "copy", "-c:a", "aac", "-shortest"] <:+: muxAudioCmd a b c) ∧
    (∀ a b c, ["-c:v", "libx264", "-c:a", "aac", "-shortest"] <:+: muxRetryCmd a b c) := by
  refine ⟨?_, ?_, ?_, ?_, ?_, ?_⟩
  · intro h
    subst h
    rfl
  · intro h1 h2
    subst h1
    subst h2
    rfl
  · intro h1 h2 h3
    subst h1
    subst h2
    subst h3
    rfl
  · intro h1 h2 h3
    subst h1
    subst h2
    subst h3
    rfl
  · intro a b c
    exact ⟨["ffmpeg", "-y", "-v", "error", "-i", a, "-i", b, "-map", "0:v:0",
      "-map", "1:a:0"], [c], rfl⟩
  · intro a b c
    exact ⟨["ffmpeg", "-y", "-v", "error", "-i", a, "-i", b], [c], rfl⟩

/-- Witness for `c9_mux_fallback`: a successful stream-copy mux keeps the
burned stream and adds the narration audio. -/
theorem c9_mux_fallback_witness :
    muxStage VideoStream.burned true false true
      = some (MuxOutcome.withAudio VideoStream.burned) :=
  (c9_mux_fallback VideoStream.burned true false true).1 rfl

/-- Python `str.strip()`: remove leading and trailing whitespace.  (Modelled
characterwise; Lean's whitespace set covers space, tab, CR and LF.) -/
def pyStrip (s : String) : String :=
  String.mk (((s.data.dropWhile Char.isWhitespace).reverse.dropWhile Char.isWhitespace).reverse)

/-- Scans characters accumulating the current word (held reversed), emitting
a word at each whitespace run boundary. -/
def splitWsAux : List Char → List Char → List String
  | [], acc => if acc = [] then [] else [String.mk acc.reverse]
  | c :: cs, acc =>
    if c.isWhitespace then
      (if acc = [] then splitWsAux cs [] else String.mk acc.reverse :: splitWsAux cs [])
    else splitWsAux cs (c :: acc)

/-- Python `str.split()` with no arguments: split on whitespace runs,
discarding empty pieces. -/
def pySplitWhitespace (s : String) : List String :=
  splitWsAux s.data []

/-- Splits at each newline, accumulating the current line (held reversed). -/
def splitLinesAux : List Char → List Char → List String
  | [], acc => [String.mk acc.reverse]
  | c :: cs, acc =>
    if c = '\n' then String.mk acc.reverse :: splitLinesAux cs []
    else splitLinesAux cs (c :: acc)

/-- Python `str.splitlines()`, modelled for LF-separated text.  (Python also
splits on rarer boundaries and drops a final empty piece; both writers strip
each piece and filter empty ones immediately, so this is immaterial.) -/
def pySplitLines (s : String) : List String :=
  splitLinesAux s.data []

/-- Embeds `single = " ".join([ln.strip() for ln in text.splitlines() if ln.strip()])`
(lines 88 and 144): embedded line breaks are flattened to one line. -/
def flattenSingle (text : String) : String :=
  String.intercalate " " (((pySplitLines text).map pyStrip).filter (fun ln => ln ≠ ""))

/-- Embeds the SRT per-cue display-line computation (lines 89-101): a
defensive branch for an empty word list, a single line for at most ten
words, otherwise a split at the word-count midpoint (`half = len(words) // 2`),
each half stripped after joining. -/
def srtLines (text : String) : List String :=
  if (pySplitWhitespace (flattenSingle text)).length ≤ 0 then [""]
  else if (pySplitWhitespace (flattenSingle text)).length ≤ 10 then [flattenSingle text]
  else
    [pyStrip (String.intercalate " "
        ((pySplitWhitespace (flattenSingle text)).take
          ((pySplitWhitespace (flattenSingle text)).length / 2))),
     pyStrip (String.intercalate " "
        ((pySplitWhitespace (flattenSingle text)).drop
          ((pySplitWhitespace (flattenSingle text)).length / 2)))]

/-- The display lines actually written for one SRT cue
(line 102: `for line in lines[:2]`). -/
def srtEmittedLines (text : String) : List String :=
  (srtLines text).take 2

/-- Embeds the ASS per-cue display-line computation (lines 144-150): the same
wrap logic as SRT, without the defensive empty-word-list branch. -/
def assLines (text : String) : List String :=
  if (pySplitWhitespace (flattenSingle text)).length ≤ 10 then [flattenSingle text]
  else
    [pyStrip (String.intercalate " "
        ((pySplitWhitespace (flattenSingle text)).take
          ((pySplitWhitespace (flattenSingle text)).length / 2))),
     pyStrip (String.intercalate " "
        ((pySplitWhitespace (flattenSingle text)).drop
          ((pySplitWhitespace (flattenSingle text)).length / 2)))]

/-- `ass_text = "\\N".join(out_lines[:2])` (line 152). -/
def assDialogueText (text : String) : String :=
  String.intercalate "\\N" ((assLines text).take 2)

/-- Claim C5: for every segment text that still has at least one word after
flattening (every non-empty text does), both subtitle writers flatten
embedded line breaks and then emit exactly one display line — the flattened
text — when it has at most 10 words, and exactly the two halves split at the
word-count midpoint `floor(n/2)` when it has more than 10; never more than
two lines. -/
theorem c5_line_wrap (text : String)
    (h : 1 ≤ (pySplitWhitespace (flattenSingle text)).length) :
    ((pySplitWhitespace (flattenSingle text)).length ≤ 10 →
      srtEmittedLines text = [flattenSingle text] ∧
      assLines text = [flattenSingle text]) ∧
    (10 < (pySplitWhitespace (flattenSingle text)).length →
      srtEmittedLines text =
        [pyStrip (String.intercalate " "
            ((pySplitWhitespace (flattenSingle text)).take
              ((pySplitWhitespace (flattenSingle text)).length / 2))),
         pyStrip (String.intercalate " "
            ((pySplitWhitespace (flattenSingle text)).drop
              ((pySplitWhitespace (flattenSingle text)).length / 2)))] ∧
      assLines text = srtEmittedLines text) ∧
    (srtEmittedLines text).length ≤ 2 ∧ (assLines text).length ≤ 2 := by
  have h0 : ¬ ((pySplitWhitespace (flattenSingle text)).length ≤ 0) := by omega
  refine ⟨?_, ?_, ?_, ?_⟩
  · intro h10
    constructor
    · simp [srtEmittedLines, srtLines, h0, h10]
    · simp [assLines, h10]
  · intro h10
    have h10' : ¬ ((pySplitWhitespace (flattenSingle text)).length ≤ 10) := by omega
    constructor
    · simp [srtEmittedLines, srtLines, h0, h10']
    · simp [assLines, srtEmittedLines, srtLines, h0, h10']
  · by_cases h10 : (pySplitWhitespace (flattenSingle text)).length ≤ 10 <;>
      simp [srtEmittedLines, srtLines, h0, h10]
  · by_cases h10 : (pySplitWhitespace (flattenSingle text)).length ≤ 10 <;>
      simp [assLines, h10]

/-- Witness for `c5_line_wrap` on the two-word text `"hello world"`. -/
theorem c5_line_wrap_witness :
    1 ≤ (pySplitWhitespace (flattenSingle "hello world")).length ∧
    srtEmittedLines "hello world" = [flattenSingle "hello world"] :=
  ⟨by decide, ((c5_line_wrap "hello world" (by decide)).1 (by decide)).1⟩

/-- One script segment as consumed by the subtitle writers: a dict whose
`text` key may be absent. -/
structure Segment where
  text : Option String
deriving DecidableEq

/-- Embeds `text = (seg.get("text") or "").strip()` (lines 78 and 138):
a missing `text` (and, via Python `or`, an empty one) becomes `""`, then the
value is stripped. -/
def segDisplayText (seg : Segment) : String :=
  pyStrip (match seg.text with
    | none => ""
    | some t => if t = "" then "" else t)

/-- Embeds the cue-timing walk of `_write_srt` (lines 75-105): starting at
0.0, each `(segment, duration)` pair advances the clock by its duration; a
pair whose display text is empty emits no cue, every other pair emits the
cue `(start, start + duration)`. -/
def srtCues : List (Segment × ℚ) → ℚ → List (ℚ × ℚ)
  | [], _ => []
  | (seg, dur) :: rest, start =>
    if segDisplayText seg = "" then srtCues rest (start + dur)
    else (start, start + dur) :: srtCues rest (start + dur)

/-- Embeds the identical cue-timing walk of `_write_ass` (lines 135-154). -/
def assCues : List (Segment × ℚ) → ℚ → List (ℚ × ℚ)
  | [], _ => []
  | (seg, dur) :: rest, start =>
    if segDisplayText seg = "" then assCues rest (start + dur)
    else (start, start + dur) :: assCues rest (start + dur)

/-- The two cue walks are the same function. -/
theorem assCues_eq_srtCues : ∀ (pairs : List (Segment × ℚ)) (s : ℚ),
    assCues pairs s = srtCues pairs s := by
  intro pairs
  induction pairs with
  | nil => intro s; rfl
  | cons p rest ih =>
    intro s
    obtain ⟨seg, dur⟩ := p
    by_cases he : segDisplayText seg = "" <;> simp [srtCues, assCues, he, ih]

/-- With non-negative durations the emitted cues are ordered: consecutive
cues do not overlap, and every cue starts no earlier than the walk's start. -/
theorem srtCues_chain : ∀ (pairs : List (Segment × ℚ)),
    (∀ p ∈ pairs, 0 ≤ p.2) → ∀ s : ℚ,
      List.Chain' (fun a b => a.2 ≤ b.1) (srtCues pairs s) ∧
      ∀ c ∈ srtCues pairs s, s ≤ c.1 := by
  intro pairs
  induction pairs with
  | nil =>
    intro _ s
    refine ⟨List.chain'_nil, ?_⟩
    intro c hc
    simp [srtCues] at hc
  | cons p rest ih =>
    intro h s
    obtain ⟨seg, dur⟩ := p
    have hd : (0 : ℚ) ≤ dur := h (seg, dur) (List.mem_cons_self _ _)
    have hrest : ∀ q ∈ rest, (0 : ℚ) ≤ q.2 := fun q hq => h q (List.mem_cons_of_mem _ hq)
    obtain ⟨ihc, ihm⟩ := ih hrest (s + dur)
    by_cases he : segDisplayText seg = ""
    · rw [srtCues, if_pos he]
      refine ⟨ihc, ?_⟩
      intro c hc
      have := ihm c hc
      linarith
    · rw [srtCues, if_neg he]
      constructor
      · refine List.chain'_cons'.mpr ⟨?_, ihc⟩
        intro b hb
        exact ihm b (List.mem_of_mem_head? hb)
      · intro c hc
        rcases List.mem_cons.mp hc with h1 | h1
        · rw [h1]
        · have := ihm c h1
          linarith

/-- Claim C6: in both subtitle encodings, for every list of segments paired
with (non-negative) durations, consecutive emitted cues never overlap:
`end[i] <= start[i+1]`. -/
theorem c6_cues_non_overlapping (segs : List Segment) (durs : List ℚ)
    (h : ∀ d ∈ durs, 0 ≤ d) :
    List.Chain' (fun a b => a.2 ≤ b.1) (srtCues (segs.zip durs) 0) ∧
    List.Chain' (fun a b => a.2 ≤ b.1) (assCues (segs.zip durs) 0) := by
  have hp : ∀ p ∈ segs.zip durs, (0 : ℚ) ≤ p.2 := by
    intro p hpmem
    exact h p.2 (List.of_mem_zip hpmem).2
  refine ⟨(srtCues_chain (segs.zip durs) hp 0).1, ?_⟩
  rw [assCues_eq_srtCues]
  exact (srtCues_chain (segs.zip durs) hp 0).1

/-- Witness for `c6_cues_non_overlapping` on two one-second segments. -/
theorem c6_cues_non_overlapping_witness :
    List.Chain' (fun a b => a.2 ≤ b.1)
      (srtCues ([Segment.mk (some "hi"), Segment.mk (some "yo")].zip [1, 1]) 0) :=
  (c6_cues_non_overlapping [Segment.mk (some "hi"), Segment.mk (some "yo")] [1, 1]
    (by intro d hd; simp at hd; subst hd; norm_num)).1

/-- The subtitle timing of claim C7, written the way the claim words it:
the `i`-th scheduled pair emits a cue exactly when its display text is
non-empty, and that cue starts at the sum of the durations of all preceding
pairs (empty or not) and ends one own-duration later.  This definition is
the comparison point for the walk `srtCues` taken from the source. -/
def cuesByPrefixSums (pairs : List (Segment × ℚ)) : List (ℚ × ℚ) :=
  (List.range pairs.length).filterMap (fun i =>
    match pairs.get? i with
    | none => none
    | some p =>
      if segDisplayText p.1 = "" then none
      else some (((pairs.take i).map (fun q => q.2)).sum,
        ((pairs.take i).map (fun q => q.2)).sum + p.2))

/-- Unfolding `cuesByPrefixSums` over a leading pair: the head contributes a
cue at time 0 when non-empty, and every later cue shifts by the head's
duration. -/
theorem cuesByPrefixSums_cons (p : Segment × ℚ) (rest : List (Segment × ℚ)) :
    cuesByPrefixSums (p :: rest)
      = (if segDisplayText p.1 = "" then [] else [((0 : ℚ), p.2)])
        ++ (cuesByPrefixSums rest).map (fun c => (p.2 + c.1, p.2 + c.2)) := by
  unfold cuesByPrefixSums
  rw [List.length_cons, List.range_succ_eq_map, List.filterMap_cons, List.filterMap_map,
    List.map_filterMap]
  have hfun : ∀ i : ℕ,
      ((fun i =>
        match (p :: rest).get? i with
        | none => none
        | some q =>
          if segDisplayText q.1 = "" then none
          else some ((((p :: rest).take i).map (fun q => q.2)).sum,
            (((p :: rest).take i).map (fun q => q.2)).sum + q.2)) ∘ Nat.succ) i
      = Option.map (fun c => (p.2 + c.1, p.2 + c.2))
          ((fun i =>
            match rest.get? i with
            | none => none
            | some q =>
              if segDisplayText q.1 = "" then none
              else some (((rest.take i).map (fun q => q.2)).sum,
                ((rest.take i).map (fun q => q.2)).sum + q.2)) i) := by
    intro i
    simp only [Function.comp_apply, List.get?_cons_succ, List.take_succ_cons, List.map_cons,
      List.sum_cons]
    cases hq : rest.get? i with
    | none => simp
    | some q =>
      by_cases he : segDisplayText q.1 = ""
      · simp [he]
      · simp [he, add_assoc]
  rw [List.filterMap_congr (fun i _ => hfun i)]
  by_cases he : segDisplayText p.1 = ""
  · simp [he]
  · simp [he]

/-- The source's cue walk started at `s` is the prefix-sum cue list shifted
by `s`. -/
theorem srtCues_eq_shifted : ∀ (pairs : List (Segment × ℚ)) (s : ℚ),
    srtCues pairs s = (cuesByPrefixSums pairs).map (fun c => (s + c.1, s + c.2)) := by
  intro pairs
  induction pairs with
  | nil => intro s; simp [srtCues, cuesByPrefixSums]
  | cons p rest ih =>
    intro s
    obtain ⟨seg, dur⟩ := p
    rw [cuesByPrefixSums_cons]
    by_cases he : segDisplayText seg = ""
    · rw [srtCues, if_pos he, ih (s + dur)]
      simp only [he, if_pos rfl]
      simp [List.map_map, Function.comp, add_assoc]
    · rw [srtCues, if_neg he, ih (s + dur)]
      simp only [he, if_neg]
      simp [List.map_map, Function.comp, add_assoc]

/-- One cue is emitted per pair with non-empty display text. -/
theorem srtCues_length_eq : ∀ (pairs : List (Segment × ℚ)) (s : ℚ),
    (srtCues pairs s).length
      = (pairs.filter (fun pr => segDisplayText pr.1 ≠ "")).length := by
  intro pairs
  induction pairs with
  | nil => intro s; rfl
  | cons p rest ih =>
    intro s
    obtain ⟨seg, dur⟩ := p
    by_cases he : segDisplayText seg = ""
    · rw [srtCues, if_pos he]
      simp [List.filter_cons, he, ih]
    · rw [srtCues, if_neg he]
      simp [List.filter_cons, he, ih]

/-- Claim C7: walking the scheduled pairs in order from time 0, a pair with
empty display text advances the clock but emits no cue, so the emitted cues
are exactly the prefix-sum cues — each cue's start time is the sum of the
durations of all preceding pairs (empty or not) — and the number of emitted
cues equals the number of non-empty segments in the truncated schedule. -/
theorem c7_cue_timing (segs : List Segment) (durs : List ℚ) :
    srtCues (segs.zip durs) 0 = cuesByPrefixSums (segs.zip durs) ∧
    (srtCues (segs.zip durs) 0).length
      = ((segs.zip durs).filter (fun pr => segDisplayText pr.1 ≠ "")).length := by
  constructor
  · rw [srtCues_eq_shifted]
    simp
  · exact srtCues_length_eq (segs.zip durs) 0
